import Mathlib

/-
Verification development for the archive-extraction orchestrator
src/libs/utils/unarchiver.cpp (Qt Creator, Utils library).

The C++ unit is embedded shallowly: QString / FilePath values are lists of
characters, the external collaborators (MIME detection, executable search,
the process abstraction, the file system) are explicit parameters, and the
signal-driven part of Unarchiver::start() is a function from the member
state and an environment to the list of emitted events plus the spawned
child-process configuration.
-/

/-- Strings and file paths of the C++ code, modelled as lists of characters. -/
abbrev Str : Type := List Char

/-- Converts a Lean string literal to the model representation. -/
def str (s : String) : Str := s.toList

/-- CommandLine of the source: an executable plus argument tokens.  The `raw`
flag mirrors `CommandLine::Raw` of the Windows powershell catalog entry; raw
templates are kept as pre-split tokens here, so `splitArguments()` is the
`args` field. -/
structure Cmd where
  executable : Str
  args : List Str
  raw : Bool := false
deriving DecidableEq, Repr

/-- Catalog entry (struct `Tool`, unarchiver.cpp lines 20–25): a command
template, the mime types the tool declares support for, and extra directories
to search for the executable. -/
structure Tool where
  command : Cmd
  supportedMimeTypes : List Str
  additionalSearchDirs : List Str
deriving DecidableEq, Repr

/-- Placeholder for the source file in command templates. -/
def patSrc : Str := str "%{src}"

/-- Placeholder for the destination directory in command templates. -/
def patDest : Str := str "%{dest}"

/-- Single-quote character used by the powershell raw template. -/
def squote : Char := Char.ofNat 39

/-- Raw argument string of the Windows powershell catalog entry
(`-command Expand-Archive -Force '%{src}' '%{dest}'`). -/
def powershellArgs : Str :=
  str "-command Expand-Archive -Force " ++ [squote] ++ patSrc ++ [squote, ' ', squote]
    ++ patDest ++ [squote]

/-- Windows-only powershell entry (line 49). -/
def powershellTool : Tool :=
  { command := { executable := str "powershell", args := [powershellArgs], raw := true },
    supportedMimeTypes := [str "application/zip"],
    additionalSearchDirs := [] }

/-- Catalog entry for `unzip` (line 53). -/
def unzipTool : Tool :=
  { command := { executable := str "unzip", args := [str "-o", patSrc, str "-d", patDest] },
    supportedMimeTypes := [str "application/zip"],
    additionalSearchDirs := [] }

/-- Catalog entry for `7z` (lines 54–56); `dirs7z` stands for the
`additionalInstallDirs` registry probe. -/
def sevenZipTool (dirs7z : List Str) : Tool :=
  { command := { executable := str "7z",
                 args := [str "x", str "-o%{dest}", str "-y", str "-bb", patSrc] },
    supportedMimeTypes := [str "application/zip", str "application/x-7z-compressed"],
    additionalSearchDirs := dirs7z }

/-- Catalog entries for `cmake -E tar` (lines 62–73), one per flag set. -/
def cmakeTool (dirsCMake : List Str) (flags : Str) (mimes : List Str) : Tool :=
  { command := { executable := str "cmake", args := [str "-E", str "tar", flags, patSrc] },
    supportedMimeTypes := mimes,
    additionalSearchDirs := dirsCMake }

/-- Catalog entries for console `tar` (lines 76–81), one per flag set. -/
def tarTool (flags : Str) (mimes : List Str) : Tool :=
  { command := { executable := str "tar", args := [flags, patSrc] },
    supportedMimeTypes := mimes,
    additionalSearchDirs := [] }

/-- Last catalog entry, the raw stream decompressor `gzip` (line 84). -/
def gzipTool : Tool :=
  { command := { executable := str "gzip", args := [str "-d", patSrc, str "-c"] },
    supportedMimeTypes := [str "application/gzip"],
    additionalSearchDirs := [] }

/-- Tool catalog (`sTools()`, lines 43–88) in catalog (priority) order.  The
`additionalInstallDirs` registry probes are external input, passed in as
`dirs7z` and `dirsCMake` (both empty off Windows). -/
def sTools (isWindowsHost : Bool) (dirs7z dirsCMake : List Str) : List Tool :=
  (if isWindowsHost then [powershellTool] else []) ++
  [unzipTool,
   sevenZipTool dirs7z,
   cmakeTool dirsCMake (str "xvf")
     [str "application/zip", str "application/x-tar", str "application/x-7z-compressed"],
   cmakeTool dirsCMake (str "xvzf") [str "application/x-compressed-tar"],
   cmakeTool dirsCMake (str "xvJf") [str "application/x-xz-compressed-tar"],
   cmakeTool dirsCMake (str "xvjf") [str "application/x-bzip-compressed-tar"],
   tarTool (str "xvf")
     [str "application/zip", str "application/x-tar", str "application/x-7z-compressed"],
   tarTool (str "xvzf") [str "application/x-compressed-tar"],
   tarTool (str "xvJf") [str "application/x-xz-compressed-tar"],
   tarTool (str "xvjf") [str "application/x-bzip-compressed-tar"],
   gzipTool]

/-- MIME filtering (`toolsForMimeType`, lines 90–96).  The detected mime type
is represented by its `inherits` predicate (the external MIME collaborator
guarantees it is reflexive on the type itself); the filter keeps every tool
declaring some type the detected one inherits from. -/
def toolsForMimeType (inherits : Str → Bool) (catalog : List Tool) : List Tool :=
  catalog.filter fun tool => tool.supportedMimeTypes.any fun mt => inherits mt

/-- Executable-search collaborator: models
`name.withExecutableSuffix().searchInPath(extraDirs)`; returns the found path,
or the empty path when the search comes back empty. -/
abbrev SearchFun : Type := Str → List Str → Str

/-- Tool resolution (`resolveTool`, lines 103–110): copy the catalog entry,
rewrite the copy's executable to the search result, and drop the candidate
when the search came back empty. -/
def resolveTool (search : SearchFun) (tool : Tool) : Option Tool :=
  let executable : Str := search tool.command.executable tool.additionalSearchDirs
  let resolvedTool : Tool := { tool with command := { tool.command with executable := executable } }
  if executable = [] then none else some resolvedTool

/-- Pairing of the source file and the selected (still unrendered) command
(`Unarchiver::SourceAndCommand`). -/
structure SourceAndCommand where
  sourceFile : Str
  commandTemplate : Cmd
deriving DecidableEq, Repr

/-- Error text of line 116. -/
def msgUnsupportedFormat : Str := str "File format not supported."

/-- FilePath::toUserOutput, modelled as the identity on path strings. -/
def toUserOutput (p : Str) : Str := p

/-- Helper of `joinSep`: prepends the separator to every element. -/
def joinSepAux (sep : Str) : List Str → Str
  | [] => []
  | x :: xs => sep ++ x ++ joinSepAux sep xs

/-- QStringList::join: elements interleaved with the separator. -/
def joinSep (sep : Str) : List Str → Str
  | [] => []
  | x :: xs => x ++ joinSepAux sep xs

/-- Error text of lines 124–128: the pattern
"Could not find any unarchiving executable in PATH (%1)." with `%1` replaced
by the comma-joined user-visible names of every attempted executable. -/
def noExecutableMessage (tools : List Tool) : Str :=
  str "Could not find any unarchiving executable in PATH (" ++
    joinSep (str ", ") (tools.map fun tool => toUserOutput tool.command.executable) ++
    str ")."

/-- Resolution entry point (`Unarchiver::sourceAndCommand`, lines 112–129).
`inherits` stands for `mimeTypeForFile(sourceFile)`'s inheritance predicate
and `catalog` for the process-global `sTools()` list; the for-loop over the
filtered tools is `findSome?`, which returns the first candidate that
resolves. -/
def sourceAndCommand (inherits : Str → Bool) (search : SearchFun)
    (catalog : List Tool) (sourceFile : Str) : Except Str SourceAndCommand :=
  let tools : List Tool := toolsForMimeType inherits catalog
  if tools.isEmpty then .error msgUnsupportedFormat
  else
    match tools.findSome? (resolveTool search) with
    | some resolvedTool => .ok ⟨sourceFile, resolvedTool.command⟩
    | none => .error (noExecutableMessage tools)

/-- Fuel-indexed helper for `replaceAll`; the fuel only provides structural
termination and is irrelevant once it dominates the input length. -/
def replaceAllFuel (pat rep : Str) : Nat → Str → Str
  | _, [] => []
  | 0, c :: cs => c :: cs
  | fuel + 1, c :: cs =>
    if pat ≠ [] ∧ pat.isPrefixOf (c :: cs) then
      rep ++ replaceAllFuel pat rep fuel ((c :: cs).drop pat.length)
    else
      c :: replaceAllFuel pat rep fuel cs

/-- QString::replace(before, after): left-to-right, non-rescanning replacement
of every occurrence of `pat` by `rep` (the inserted text is not scanned
again). -/
def replaceAll (pat rep s : Str) : Str := replaceAllFuel pat rep s.length s

/-- Per-token rendering of `unarchiveCommand` (line 135): first every `%{src}`
is replaced by the source path, then every `%{dest}` by the destination
path. -/
def renderArg (sourceFile destDir : Str) (arg : Str) : Str :=
  replaceAll patDest destDir (replaceAll patSrc sourceFile arg)

/-- Command rendering (`unarchiveCommand`, lines 131–138): every argument
token is rendered and a fresh command is built from the untouched
executable. -/
def unarchiveCommand (commandTemplate : Cmd) (sourceFile destDir : Str) : Cmd :=
  { executable := commandTemplate.executable,
    args := commandTemplate.args.map (renderArg sourceFile destDir),
    raw := false }

/-- FilePath::fileName: the component after the last path separator. -/
def fileName (p : Str) : Str := (p.reverse.takeWhile fun c => c != '/').reverse

/-- Events the unarchiver emits towards its caller: `outputReceived` lines and
the terminal `done` signal (`true` stands for DoneResult::Success). -/
inductive UEvent where
  | output (text : Str)
  | doneEv (success : Bool)
deriving DecidableEq, Repr

/-- Diagnostic line of line 145. -/
def msgNoSource : Str := str "No source file set."

/-- Diagnostic line of line 150. -/
def msgNoDest : Str := str "No destination directory set."

/-- Diagnostic line of line 164. -/
def msgOpenFail : Str := str "Failed to open output file."

/-- Diagnostic line of line 173. -/
def msgWriteFail : Str := str "Failed to write output file."

/-- Diagnostic line of lines 185 and 206. -/
def msgCmdFail : Str := str "Command failed."

/-- CommandLine::toUserOutput, modelled as executable and arguments joined by
blanks. -/
def cmdToUserOutput (c : Cmd) : Str :=
  c.executable ++ str " " ++ joinSep (str " ") c.args

/-- Progress line of lines 189–191 and 210–211. -/
def runningMessage (c : Cmd) (destDir : Str) : Str :=
  str "Running " ++ cmdToUserOutput c ++ str "\nin \"" ++ toUserOutput destDir ++ str "\".\n\n"

/-- Unarchiver member state read by `start()` (`m_process` ownership,
`m_sourceAndCommand`, `m_destDir`, `m_gzipFileDestName`). -/
structure UnarchiverState where
  hasProcess : Bool
  sourceAndCommand : Option SourceAndCommand
  destDir : Str
  gzipFileDestName : Str
deriving DecidableEq, Repr

/-- Branch taken by `start()`: the raw stream-decompressor branch (line 159)
or the archive-extracting branch (line 198). -/
inductive SpawnKind where
  | gzipStream
  | archiveTool
deriving DecidableEq, Repr

/-- Configuration of the child process spawned by `start()`, with the opened
output-file path in the raw-decompressor branch. -/
structure SpawnedProcess where
  command : Cmd
  workingDir : Str
  kind : SpawnKind
  outputFile : Option Str
deriving DecidableEq, Repr

/-- Environment behaviour visible to `start()`: whether
`m_destDir.ensureWritableDir()` succeeds, and whether opening the gzip output
file succeeds.  The code discards the result of `ensureWritableDir()`
(line 157), so the first field is — faithfully — never consulted. -/
structure StartEnv where
  ensureWritableDirOk : Bool
  openOutputFileOk : Bool
deriving DecidableEq, Repr

/-- Result of one `start()` call: the synchronously emitted events, the
spawned process (if any), and whether the defensive `QTC_ASSERT` fired. -/
structure StartResult where
  events : List UEvent
  spawned : Option SpawnedProcess
  assertionFailed : Bool
deriving DecidableEq, Repr

/-- FilePath `/` concatenation used for `m_destDir / m_gzipFileDestName`. -/
def pathJoin (dir name : Str) : Str := dir ++ ['/'] ++ name

/-- Unarchiver::start (lines 140–216).  `QTC_ASSERT(!m_process, emit done; return)`
is modelled by `assertionFailed := true` plus the `done(Error)` the assert
action emits. -/
def Unarchiver.start (env : StartEnv) (st : UnarchiverState) : StartResult :=
  if st.hasProcess then
    { events := [.doneEv false], spawned := none, assertionFailed := true }
  else
    match st.sourceAndCommand with
    | none =>
      { events := [.output msgNoSource, .doneEv false], spawned := none,
        assertionFailed := false }
    | some sc =>
      if st.destDir = [] then
        { events := [.output msgNoDest, .doneEv false], spawned := none,
          assertionFailed := false }
      else
        let command := unarchiveCommand sc.commandTemplate sc.sourceFile st.destDir
        if fileName command.executable = str "gzip" then
          if env.openOutputFileOk = false then
            { events := [.output msgOpenFail, .doneEv false], spawned := none,
              assertionFailed := false }
          else
            { events := [.output (runningMessage command st.destDir)],
              spawned := some { command := command, workingDir := st.destDir,
                                kind := .gzipStream,
                                outputFile := some (pathJoin st.destDir st.gzipFileDestName) },
              assertionFailed := false }
        else
          { events := [.output (runningMessage command st.destDir)],
            spawned := some { command := command, workingDir := st.destDir,
                              kind := .archiveTool, outputFile := none },
            assertionFailed := false }

/-- Notifications the process abstraction delivers while the child runs;
`written` is the byte count `QFile::write` reports for the chunk (the file
receives the first `written` bytes). -/
inductive ChunkEvent where
  | stdoutChunk (data : List Nat) (written : Nat)
  | stderrChunk (text : Str)
deriving DecidableEq, Repr

/-- Folds the gzip-branch ready-read handlers (lines 170–179) over the chunk
notifications: stdout chunks are appended to the output file, and a short
write emits the write-failure diagnostic followed by a `done(Error)`; stderr
chunks are forwarded to the caller.  Returns the final file contents and the
events emitted while the child ran. -/
def runChunks : List ChunkEvent → List Nat → List Nat × List UEvent
  | [], contents => (contents, [])
  | .stdoutChunk data written :: rest, contents =>
    ((runChunks rest (contents ++ data.take written)).1,
     (if written = data.length then ([] : List UEvent)
      else [.output msgWriteFail, .doneEv false])
       ++ (runChunks rest (contents ++ data.take written)).2)
  | .stderrChunk text :: rest, contents =>
    ((runChunks rest contents).1, .output text :: (runChunks rest contents).2)

/-- Completion of one gzip-branch run (handlers of lines 170–188): the chunk
notifications arrive first, then the process `done` handler closes the file,
removes it and appends the failure diagnostic when the verdict is not
success, and emits the terminal event.  The first component is the final
output-file state (`none` means the file was removed). -/
def gzipProcessRun (chunks : List ChunkEvent) (success : Bool) :
    Option (List Nat) × List UEvent :=
  if success then
    (some (runChunks chunks []).1, (runChunks chunks []).2 ++ [.doneEv true])
  else
    (none, (runChunks chunks []).2 ++ [.output msgCmdFail, .doneEv false])

/-- Bytes the child wrote to stdout: the concatenation of all stdout chunks. -/
def stdoutBytes : List ChunkEvent → List Nat
  | [] => []
  | .stdoutChunk data _ :: rest => data ++ stdoutBytes rest
  | .stderrChunk _ :: rest => stdoutBytes rest

/-- Bytes actually consumed by the output-file writes. -/
def writtenBytes : List ChunkEvent → List Nat
  | [] => []
  | .stdoutChunk data written :: rest => data.take written ++ writtenBytes rest
  | .stderrChunk _ :: rest => writtenBytes rest

/-- Counts terminal `done` events in an event trace. -/
def countDone (events : List UEvent) : Nat :=
  events.countP fun e => match e with | .doneEv _ => true | .output _ => false

/-- Fuel-indexed helper for `renderArgSpec`. -/
def renderArgSpecFuel (sourceFile destDir : Str) : Nat → Str → Str
  | _, [] => []
  | 0, c :: cs => c :: cs
  | fuel + 1, c :: cs =>
    if patSrc.isPrefixOf (c :: cs) then
      sourceFile ++ renderArgSpecFuel sourceFile destDir fuel ((c :: cs).drop patSrc.length)
    else if patDest.isPrefixOf (c :: cs) then
      destDir ++ renderArgSpecFuel sourceFile destDir fuel ((c :: cs).drop patDest.length)
    else
      c :: renderArgSpecFuel sourceFile destDir fuel cs

/-- Spec-side rendering, written after the spec's words for the refinement
comparison with `renderArg`: one simultaneous left-to-right pass that replaces
every `%{src}` occurrence by the source path and every `%{dest}` occurrence by
the destination path. -/
def renderArgSpec (sourceFile destDir s : Str) : Str :=
  renderArgSpecFuel sourceFile destDir s.length s

/-- Decides that a suffix beginning with the placeholder lead-in character
actually begins a full placeholder token. -/
def startsOk (t : Str) : Bool :=
  match t with
  | '%' :: _ => patSrc.isPrefixOf t || patDest.isPrefixOf t
  | _ => true

/-- Well-formed template argument: every occurrence of the character `%`
starts a full `%{src}` or `%{dest}` placeholder.  Every argument token of the
tool catalog satisfies this. -/
def wfArg (s : Str) : Bool := s.tails.all startsOk

/-- Inheritance predicate of the detected media type of a `.tar.gz` file:
`application/x-compressed-tar` inherits itself (reflexively) and
`application/gzip` (its parent in the shared MIME database, as stated by the
spec). -/
def inheritsTgz : Str → Bool := fun m =>
  m == str "application/x-compressed-tar" || m == str "application/gzip"

/-- Executable search in which only the raw `gzip` decompressor resolves. -/
def searchGzipOnly : SearchFun := fun name _ =>
  if name == str "gzip" then str "/usr/bin/gzip" else []

/-- Executable search in which nothing resolves. -/
def searchNothing : SearchFun := fun _ _ => []

/-- Inheritance predicate of a plain `application/zip` media type. -/
def inheritsZip : Str → Bool := fun m => m == str "application/zip"

/-- Executable search in which only `7z` resolves. -/
def searchSevenZipOnly : SearchFun := fun name _ =>
  if name == str "7z" then str "/opt/bin/7z" else []

/-- Unarchiver state holding a resolved console-tar command, aimed at a
destination whose parent is not writable. -/
def tarState : UnarchiverState :=
  { hasProcess := false,
    sourceAndCommand := some { sourceFile := str "/tmp/a.tar",
                               commandTemplate := { executable := str "/bin/tar",
                                                    args := [str "xvf", patSrc],
                                                    raw := false } },
    destDir := str "/na/dest",
    gzipFileDestName := str "out" }

/-- Resolved source-and-command pair for a `.gz` source and the raw
decompressor. -/
def gzipSC : SourceAndCommand :=
  { sourceFile := str "/tmp/data.gz",
    commandTemplate := { executable := str "/usr/bin/gzip",
                         args := [str "-d", patSrc, str "-c"], raw := false } }

/-- Unarchiver state holding a resolved raw-decompressor command. -/
def gzipState : UnarchiverState :=
  { hasProcess := false,
    sourceAndCommand := some gzipSC,
    destDir := str "/na/dest",
    gzipFileDestName := str "data" }

/-- Resolved copy of the gzip catalog entry under `searchGzipOnly`. -/
def resolvedGzip : Tool :=
  { command := { executable := str "/usr/bin/gzip",
                 args := [str "-d", patSrc, str "-c"], raw := false },
    supportedMimeTypes := [str "application/gzip"],
    additionalSearchDirs := [] }

deriving instance DecidableEq for Except

/-- Bridges the boolean check used by the code to the propositional order. -/
theorem isPrefixOf_eq_true_iff {l₁ l₂ : Str} : l₁.isPrefixOf l₂ = true ↔ l₁ <+: l₂ :=
  List.isPrefixOf_iff_prefix

/-- Leading segments are contained segments. -/
theorem contains_of_starts {l₁ l₂ : Str} (h : l₁ <+: l₂) : l₁ <:+: l₂ := by
  obtain ⟨t, ht⟩ := h
  exact ⟨[], t, by simpa using ht⟩

/-- Trailing segments are contained segments. -/
theorem contains_of_ends {l₁ l₂ : Str} (h : l₁ <:+ l₂) : l₁ <:+: l₂ := by
  obtain ⟨s, hs⟩ := h
  exact ⟨s, [], by simpa using hs⟩

/-- Containment survives surrounding material on both sides. -/
theorem contains_append_middle {x m : Str} (a b : Str) (h : x <:+: m) :
    x <:+: a ++ m ++ b := by
  obtain ⟨s, t, hm⟩ := h
  exact ⟨a ++ s, t ++ b, by rw [← hm]; simp [List.append_assoc]⟩

/-- Fuel irrelevance for `replaceAllFuel`: any fuel dominating the input
length computes the same result. -/
theorem replaceAllFuel_irrel (pat rep : Str) :
    ∀ f g s, s.length ≤ f → s.length ≤ g →
      replaceAllFuel pat rep f s = replaceAllFuel pat rep g s := by
  intro f
  induction f with
  | zero =>
    intro g s hf _
    have hs : s = [] := List.length_eq_zero.mp (Nat.le_zero.mp hf)
    subst hs
    cases g <;> rfl
  | succ f ih =>
    intro g s hf hg
    cases s with
    | nil => cases g <;> rfl
    | cons c cs =>
      cases g with
      | zero => exact absurd hg (by simp)
      | succ g =>
        simp only [replaceAllFuel]
        by_cases h : pat ≠ [] ∧ pat.isPrefixOf (c :: cs) = true
        · rw [if_pos h, if_pos h]
          have hplen : 1 ≤ pat.length := by
            cases hp : pat with
            | nil => exact absurd hp h.1
            | cons x xs => simp
          have hf' := hf
          have hg' := hg
          simp only [List.length_cons] at hf' hg'
          rw [ih g _ (by simp only [List.length_drop, List.length_cons]; omega)
                (by simp only [List.length_drop, List.length_cons]; omega)]
        · rw [if_neg h, if_neg h]
          have hf' := hf
          have hg' := hg
          simp only [List.length_cons] at hf' hg'
          rw [ih g _ (by omega) (by omega)]

/-- Unfolding equation of `replaceAll` on a non-empty input. -/
theorem replaceAll_cons (pat rep : Str) (c : Char) (cs : Str) :
    replaceAll pat rep (c :: cs) =
      if pat ≠ [] ∧ pat.isPrefixOf (c :: cs) then
        rep ++ replaceAll pat rep ((c :: cs).drop pat.length)
      else
        c :: replaceAll pat rep cs := by
  show replaceAllFuel pat rep (c :: cs).length (c :: cs) = _
  rw [List.length_cons]
  simp only [replaceAllFuel]
  by_cases h : pat ≠ [] ∧ pat.isPrefixOf (c :: cs) = true
  · rw [if_pos h, if_pos h]
    have hplen : 1 ≤ pat.length := by
      cases hp : pat with
      | nil => exact absurd hp h.1
      | cons x xs => simp
    congr 1
    exact replaceAllFuel_irrel pat rep cs.length _ _
      (by simp only [List.length_drop, List.length_cons]; omega) (le_refl _)
  · rw [if_neg h, if_neg h]
    rfl

/-- Copy step of `replaceAll` when the pattern does not match here. -/
theorem replaceAll_not_matched (pat rep : Str) (c : Char) (cs : Str)
    (h : ¬ pat.isPrefixOf (c :: cs) = true) :
    replaceAll pat rep (c :: cs) = c :: replaceAll pat rep cs := by
  rw [replaceAll_cons, if_neg fun hcon => h hcon.2]

/-- Replacement step of `replaceAll` when the pattern matches here. -/
theorem replaceAll_matched (pat rep t : Str) (hne : pat ≠ []) :
    replaceAll pat rep (pat ++ t) = rep ++ replaceAll pat rep t := by
  obtain ⟨c, cs, hpat⟩ : ∃ c cs, pat = c :: cs := by
    cases hp : pat with
    | nil => exact absurd hp hne
    | cons c cs => exact ⟨c, cs, rfl⟩
  have hpre : pat.isPrefixOf (pat ++ t) = true :=
    isPrefixOf_eq_true_iff.mpr (List.prefix_append _ _)
  have hdrop : (pat ++ t).drop pat.length = t := List.drop_left _ _
  conv_lhs => rw [hpat, List.cons_append]
  rw [replaceAll_cons, ← List.cons_append, ← hpat, if_pos ⟨hne, hpre⟩, hdrop]

/-- Heads must agree for the pattern to match. -/
theorem not_matched_head_ne (pat q : Str) (hq : pat = '%' :: q)
    (c : Char) (cs : Str) (hc : c ≠ '%') : ¬ pat.isPrefixOf (c :: cs) = true := by
  intro hcon
  have hpre := isPrefixOf_eq_true_iff.mp hcon
  rw [hq] at hpre
  exact hc (List.cons_prefix_cons.mp hpre).1.symm

/-- Text free of the pattern's lead-in character passes through `replaceAll`
unchanged. -/
theorem replaceAll_skip (pat rep q : Str) (hq : pat = '%' :: q)
    (u t : Str) (hu : ∀ c ∈ u, c ≠ '%') :
    replaceAll pat rep (u ++ t) = u ++ replaceAll pat rep t := by
  induction u with
  | nil => simp
  | cons c u ih =>
    have hc : c ≠ '%' := hu c (List.mem_cons_self c u)
    rw [List.cons_append, replaceAll_not_matched _ _ _ _ (not_matched_head_ne pat q hq c _ hc),
        ih fun x hx => hu x (List.mem_cons_of_mem c hx), List.cons_append]

/-- Decomposition of the source placeholder. -/
theorem patSrc_cons : patSrc = '%' :: str "{src}" := by decide

/-- Decomposition of the destination placeholder. -/
theorem patDest_cons : patDest = '%' :: str "{dest}" := by decide

/-- The source placeholder never matches where the destination placeholder
starts. -/
theorem patSrc_not_at_patDest (t : Str) : ¬ patSrc.isPrefixOf (patDest ++ t) = true := by
  intro hcon
  have h1 : patSrc <+: patDest ++ t := isPrefixOf_eq_true_iff.mp hcon
  have h2 : patSrc <+: patDest :=
    List.prefix_of_prefix_length_le h1 (List.prefix_append _ _) (by decide)
  exact absurd (isPrefixOf_eq_true_iff.mpr h2) (by decide)

/-- Replacing `%{src}` leaves a leading `%{dest}` untouched. -/
theorem replaceAll_src_on_patDest (rep t : Str) :
    replaceAll patSrc rep (patDest ++ t) = patDest ++ replaceAll patSrc rep t := by
  conv_lhs => rw [patDest_cons, List.cons_append]
  rw [replaceAll_not_matched _ _ _ _ (by
        rw [← List.cons_append, ← patDest_cons]
        exact patSrc_not_at_patDest t),
      replaceAll_skip patSrc rep (str "{src}") patSrc_cons (str "{dest}") t (by decide),
      patDest_cons, List.cons_append]

/-- Fuel irrelevance for `renderArgSpecFuel`. -/
theorem renderArgSpecFuel_irrel (sf dd : Str) :
    ∀ f g s, s.length ≤ f → s.length ≤ g →
      renderArgSpecFuel sf dd f s = renderArgSpecFuel sf dd g s := by
  intro f
  induction f with
  | zero =>
    intro g s hf _
    have hs : s = [] := List.length_eq_zero.mp (Nat.le_zero.mp hf)
    subst hs
    cases g <;> rfl
  | succ f ih =>
    intro g s hf hg
    cases s with
    | nil => cases g <;> rfl
    | cons c cs =>
      cases g with
      | zero => exact absurd hg (by simp)
      | succ g =>
        simp only [renderArgSpecFuel]
        have hf' := hf
        have hg' := hg
        simp only [List.length_cons] at hf' hg'
        have hp6 : 1 ≤ patSrc.length := by decide
        have hp7 : 1 ≤ patDest.length := by decide
        have hdf : ((c :: cs).drop patSrc.length).length ≤ f := by
          simp only [List.length_drop, List.length_cons]
          omega
        have hdg : ((c :: cs).drop patSrc.length).length ≤ g := by
          simp only [List.length_drop, List.length_cons]
          omega
        have hef : ((c :: cs).drop patDest.length).length ≤ f := by
          simp only [List.length_drop, List.length_cons]
          omega
        have heg : ((c :: cs).drop patDest.length).length ≤ g := by
          simp only [List.length_drop, List.length_cons]
          omega
        by_cases h1 : patSrc.isPrefixOf (c :: cs) = true
        · rw [if_pos h1, if_pos h1, ih g _ hdf hdg]
        · rw [if_neg h1, if_neg h1]
          by_cases h2 : patDest.isPrefixOf (c :: cs) = true
          · rw [if_pos h2, if_pos h2, ih g _ hef heg]
          · rw [if_neg h2, if_neg h2, ih g _ (by omega) (by omega)]

/-- Unfolding equation of `renderArgSpec` on a non-empty input. -/
theorem renderArgSpec_cons (sf dd : Str) (c : Char) (cs : Str) :
    renderArgSpec sf dd (c :: cs) =
      if patSrc.isPrefixOf (c :: cs) then
        sf ++ renderArgSpec sf dd ((c :: cs).drop patSrc.length)
      else if patDest.isPrefixOf (c :: cs) then
        dd ++ renderArgSpec sf dd ((c :: cs).drop patDest.length)
      else c :: renderArgSpec sf dd cs := by
  show renderArgSpecFuel sf dd (c :: cs).length (c :: cs) = _
  rw [List.length_cons]
  simp only [renderArgSpecFuel]
  have hp6 : 1 ≤ patSrc.length := by decide
  have hp7 : 1 ≤ patDest.length := by decide
  have hdf : ((c :: cs).drop patSrc.length).length ≤ cs.length := by
    simp only [List.length_drop, List.length_cons]
    omega
  have hef : ((c :: cs).drop patDest.length).length ≤ cs.length := by
    simp only [List.length_drop, List.length_cons]
    omega
  by_cases h1 : patSrc.isPrefixOf (c :: cs) = true
  · rw [if_pos h1, if_pos h1]
    congr 1
    exact renderArgSpecFuel_irrel sf dd cs.length _ _ hdf (le_refl _)
  · rw [if_neg h1, if_neg h1]
    by_cases h2 : patDest.isPrefixOf (c :: cs) = true
    · rw [if_pos h2, if_pos h2]
      congr 1
      exact renderArgSpecFuel_irrel sf dd cs.length _ _ hef (le_refl _)
    · rw [if_neg h2, if_neg h2]
      rfl

/-- Source-placeholder step of `renderArgSpec`. -/
theorem renderArgSpec_src (sf dd t : Str) :
    renderArgSpec sf dd (patSrc ++ t) = sf ++ renderArgSpec sf dd t := by
  obtain ⟨c, cs, hpat⟩ : ∃ c cs, patSrc = c :: cs := ⟨'%', str "{src}", patSrc_cons⟩
  have hpre : patSrc.isPrefixOf (patSrc ++ t) = true :=
    isPrefixOf_eq_true_iff.mpr (List.prefix_append _ _)
  have hdrop : (patSrc ++ t).drop patSrc.length = t := List.drop_left _ _
  conv_lhs => rw [hpat, List.cons_append]
  rw [renderArgSpec_cons, ← List.cons_append, ← hpat, if_pos hpre, hdrop]

/-- Destination-placeholder step of `renderArgSpec`. -/
theorem renderArgSpec_dest (sf dd t : Str) :
    renderArgSpec sf dd (patDest ++ t) = dd ++ renderArgSpec sf dd t := by
  have hpre : patDest.isPrefixOf (patDest ++ t) = true :=
    isPrefixOf_eq_true_iff.mpr (List.prefix_append _ _)
  have hnps := patSrc_not_at_patDest t
  have hdrop : (patDest ++ t).drop patDest.length = t := List.drop_left _ _
  conv_lhs => rw [patDest_cons, List.cons_append]
  rw [renderArgSpec_cons, ← List.cons_append, ← patDest_cons, if_neg hnps, if_pos hpre, hdrop]

/-- Copy step of `renderArgSpec`. -/
theorem renderArgSpec_char (sf dd : Str) (c : Char) (cs : Str)
    (h1 : ¬ patSrc.isPrefixOf (c :: cs) = true)
    (h2 : ¬ patDest.isPrefixOf (c :: cs) = true) :
    renderArgSpec sf dd (c :: cs) = c :: renderArgSpec sf dd cs := by
  rw [renderArgSpec_cons, if_neg h1, if_neg h2]

/-- Well-formedness restricts to trailing segments. -/
theorem wfArg_of_within {s t : Str} (hsuf : t <:+ s) (h : wfArg s = true) :
    wfArg t = true := by
  rw [wfArg, List.all_eq_true] at h ⊢
  intro x hx
  exact h x ((List.mem_tails _ _).mpr (((List.mem_tails _ _).mp hx).trans hsuf))

/-- Well-formedness yields the head condition. -/
theorem startsOk_of_wfArg {s : Str} (h : wfArg s = true) : startsOk s = true := by
  rw [wfArg, List.all_eq_true] at h
  exact h s ((List.mem_tails _ _).mpr (List.suffix_refl s))

/-- Head of a well-formed argument at which no placeholder matches is not the
placeholder lead-in character. -/
theorem head_ne_pct_of_wf {c : Char} {cs : Str} (hwf : wfArg (c :: cs) = true)
    (hps : ¬ patSrc.isPrefixOf (c :: cs) = true)
    (hpd : ¬ patDest.isPrefixOf (c :: cs) = true) : c ≠ '%' := by
  have hso := startsOk_of_wfArg hwf
  intro he
  subst he
  simp only [startsOk] at hso
  rw [Bool.or_eq_true] at hso
  rcases hso with h | h
  · exact hps h
  · exact hpd h

/-- Refinement core: on a well-formed argument, with placeholder-free path
strings, the two sequential passes of the code compute the simultaneous
substitution of the spec. -/
theorem renderArg_eq_spec_aux (sf dd : Str) (hs : '%' ∉ sf) (hd : '%' ∉ dd) :
    ∀ n arg, List.length arg ≤ n → wfArg arg = true →
      renderArg sf dd arg = renderArgSpec sf dd arg := by
  have hsf : ∀ c ∈ sf, c ≠ '%' := fun c hc he => hs (he ▸ hc)
  intro n
  induction n with
  | zero =>
    intro arg hlen _
    have harg : arg = [] := List.length_eq_zero.mp (Nat.le_zero.mp hlen)
    subst harg
    rfl
  | succ n ih =>
    intro arg hlen hwf
    cases arg with
    | nil => rfl
    | cons c cs =>
      by_cases hps : patSrc.isPrefixOf (c :: cs) = true
      · obtain ⟨t, ht⟩ := isPrefixOf_eq_true_iff.mp hps
        rw [← ht] at hlen hwf ⊢
        have h6 : patSrc.length = 6 := by decide
        have hlt : t.length ≤ n := by
          rw [List.length_append, h6] at hlen
          omega
        have hwt : wfArg t = true := wfArg_of_within ⟨patSrc, rfl⟩ hwf
        simp only [renderArg]
        rw [replaceAll_matched _ _ _ (by decide),
            replaceAll_skip patDest dd (str "{dest}") patDest_cons sf _ hsf,
            renderArgSpec_src]
        have hrec := ih t hlt hwt
        simp only [renderArg] at hrec
        rw [hrec]
      · by_cases hpd : patDest.isPrefixOf (c :: cs) = true
        · obtain ⟨t, ht⟩ := isPrefixOf_eq_true_iff.mp hpd
          rw [← ht] at hlen hwf ⊢
          have h7 : patDest.length = 7 := by decide
          have hlt : t.length ≤ n := by
            rw [List.length_append, h7] at hlen
            omega
          have hwt : wfArg t = true := wfArg_of_within ⟨patDest, rfl⟩ hwf
          simp only [renderArg]
          rw [replaceAll_src_on_patDest, replaceAll_matched _ _ _ (by decide),
              renderArgSpec_dest]
          have hrec := ih t hlt hwt
          simp only [renderArg] at hrec
          rw [hrec]
        · have hc : c ≠ '%' := head_ne_pct_of_wf hwf hps hpd
          have hlt : cs.length ≤ n := by
            simp only [List.length_cons] at hlen
            omega
          simp only [renderArg]
          rw [replaceAll_not_matched _ _ _ _ hps,
              replaceAll_not_matched _ _ _ _
                (not_matched_head_ne patDest (str "{dest}") patDest_cons c _ hc),
              renderArgSpec_char sf dd c cs hps hpd]
          have hrec := ih cs hlt (wfArg_of_within (List.suffix_cons c cs) hwf)
          simp only [renderArg] at hrec
          rw [hrec]

/-- Rendering a well-formed argument with placeholder-free paths leaves no
placeholder lead-in character at all. -/
theorem renderArgSpec_no_pct (sf dd : Str) (hs : '%' ∉ sf) (hd : '%' ∉ dd) :
    ∀ n arg, List.length arg ≤ n → wfArg arg = true →
      '%' ∉ renderArgSpec sf dd arg := by
  intro n
  induction n with
  | zero =>
    intro arg hlen _
    have harg : arg = [] := List.length_eq_zero.mp (Nat.le_zero.mp hlen)
    subst harg
    simp [renderArgSpec, renderArgSpecFuel]
  | succ n ih =>
    intro arg hlen hwf
    cases arg with
    | nil => simp [renderArgSpec, renderArgSpecFuel]
    | cons c cs =>
      by_cases hps : patSrc.isPrefixOf (c :: cs) = true
      · obtain ⟨t, ht⟩ := isPrefixOf_eq_true_iff.mp hps
        rw [← ht] at hlen hwf ⊢
        have h6 : patSrc.length = 6 := by decide
        have hlt : t.length ≤ n := by
          rw [List.length_append, h6] at hlen
          omega
        have hwt : wfArg t = true := wfArg_of_within ⟨patSrc, rfl⟩ hwf
        rw [renderArgSpec_src]
        intro hmem
        rcases List.mem_append.mp hmem with h | h
        · exact hs h
        · exact ih t hlt hwt h
      · by_cases hpd : patDest.isPrefixOf (c :: cs) = true
        · obtain ⟨t, ht⟩ := isPrefixOf_eq_true_iff.mp hpd
          rw [← ht] at hlen hwf ⊢
          have h7 : patDest.length = 7 := by decide
          have hlt : t.length ≤ n := by
            rw [List.length_append, h7] at hlen
            omega
          have hwt : wfArg t = true := wfArg_of_within ⟨patDest, rfl⟩ hwf
          rw [renderArgSpec_dest]
          intro hmem
          rcases List.mem_append.mp hmem with h | h
          · exact hd h
          · exact ih t hlt hwt h
        · have hc : c ≠ '%' := head_ne_pct_of_wf hwf hps hpd
          have hlt : cs.length ≤ n := by
            simp only [List.length_cons] at hlen
            omega
          rw [renderArgSpec_char sf dd c cs hps hpd]
          intro hmem
          rcases List.mem_cons.mp hmem with h | h
          · exact hc h.symm
          · exact ih cs hlt (wfArg_of_within (List.suffix_cons c cs) hwf) h

/-- Containment of a placeholder forces containment of its lead-in
character. -/
theorem no_placeholder_of_no_pct {s : Str} (h : '%' ∉ s) :
    ¬ patSrc <:+: s ∧ ¬ patDest <:+: s := by
  constructor
  · intro hin
    exact h (hin.subset (by decide))
  · intro hin
    exact h (hin.subset (by decide))

/-- Membership gives containment in the separator-joined tail. -/
theorem joinSepAux_contains_mem (sep x : Str) :
    ∀ l, x ∈ l → x <:+: joinSepAux sep l := by
  intro l
  induction l with
  | nil =>
    intro hx
    exact absurd hx (List.not_mem_nil x)
  | cons y ys ih =>
    intro hx
    simp only [joinSepAux]
    rcases List.mem_cons.mp hx with h | h
    · subst h
      exact List.infix_append sep x _
    · exact (ih h).trans (contains_of_ends (List.suffix_append (sep ++ y) _))

/-- Membership gives containment in the joined list. -/
theorem joinSep_contains_mem (sep x : Str) (l : List Str) (hx : x ∈ l) :
    x <:+: joinSep sep l := by
  cases l with
  | nil => exact absurd hx (List.not_mem_nil x)
  | cons y ys =>
    simp only [joinSep]
    rcases List.mem_cons.mp hx with h | h
    · subst h
      exact contains_of_starts (List.prefix_append x _)
    · exact (joinSepAux_contains_mem sep x ys h).trans
        (contains_of_ends (List.suffix_append y _))

/-- First component of `runChunks`: the handlers append exactly the bytes the
writes consumed. -/
theorem runChunks_fst (chunks : List ChunkEvent) :
    ∀ c0, (runChunks chunks c0).1 = c0 ++ writtenBytes chunks := by
  induction chunks with
  | nil =>
    intro c0
    simp [runChunks, writtenBytes]
  | cons ev rest ih =>
    intro c0
    cases ev with
    | stdoutChunk d w => simp [runChunks, writtenBytes, ih, List.append_assoc]
    | stderrChunk s => simp [runChunks, writtenBytes, ih]

/-- Complete writes consume exactly the stdout bytes. -/
theorem writtenBytes_eq_stdoutBytes (chunks : List ChunkEvent)
    (hfull : ∀ data written, ChunkEvent.stdoutChunk data written ∈ chunks →
      written = data.length) :
    writtenBytes chunks = stdoutBytes chunks := by
  induction chunks with
  | nil => rfl
  | cons ev rest ih =>
    cases ev with
    | stdoutChunk d w =>
      have hw : w = d.length := hfull d w (List.mem_cons_self _ _)
      simp only [writtenBytes, stdoutBytes, hw, List.take_length]
      rw [ih fun d2 w2 h2 => hfull d2 w2 (List.mem_cons_of_mem _ h2)]
    | stderrChunk s =>
      simp only [writtenBytes, stdoutBytes]
      rw [ih fun d2 w2 h2 => hfull d2 w2 (List.mem_cons_of_mem _ h2)]

/-- C5: for every source file and fixed executable-search environment, tool
selection is deterministic and returns the first catalog entry, in catalog
order, that both supports the detected media type and resolves to an existing
executable; no later candidate is ever preferred over an earlier resolvable
one. -/
theorem c5_first_match_selection (inherits : Str → Bool) (search : SearchFun)
    (catalog : List Tool) (sourceFile : Str) (pre post : List Tool) (t rt : Tool)
    (hsplit : toolsForMimeType inherits catalog = pre ++ t :: post)
    (hpre : ∀ u ∈ pre, resolveTool search u = none)
    (ht : resolveTool search t = some rt) :
    sourceAndCommand inherits search catalog sourceFile
      = .ok { sourceFile := sourceFile, commandTemplate := rt.command } := by
  have hfind : ∀ pre2, (∀ u ∈ pre2, resolveTool search u = none) →
      (pre2 ++ t :: post).findSome? (resolveTool search) = some rt := by
    intro pre2
    induction pre2 with
    | nil =>
      intro _
      rw [List.nil_append]
      rw [List.findSome?_cons_of_isSome post (by rw [ht]; rfl), ht]
    | cons u us ih =>
      intro hall
      rw [List.cons_append,
          List.findSome?_cons_of_isNone _ (by rw [hall u (List.mem_cons_self u us)]; rfl)]
      exact ih fun v hv => hall v (List.mem_cons_of_mem u hv)
  simp only [sourceAndCommand, hsplit]
  rw [if_neg (by simp), hfind pre hpre]

/-- C5 witness: with only `7z` resolvable for a zip source, the second catalog
candidate wins after the unresolvable `unzip`. -/
theorem c5_first_match_selection_witness :
    sourceAndCommand inheritsZip searchSevenZipOnly (sTools false [] []) (str "a.zip")
      = .ok { sourceFile := str "a.zip",
              commandTemplate := { executable := str "/opt/bin/7z",
                                   args := [str "x", str "-o%{dest}", str "-y", str "-bb",
                                            patSrc],
                                   raw := false } } :=
  c5_first_match_selection inheritsZip searchSevenZipOnly (sTools false [] []) (str "a.zip")
    [unzipTool]
    [cmakeTool [] (str "xvf")
       [str "application/zip", str "application/x-tar", str "application/x-7z-compressed"],
     tarTool (str "xvf")
       [str "application/zip", str "application/x-tar", str "application/x-7z-compressed"]]
    (sevenZipTool [])
    { command := { executable := str "/opt/bin/7z",
                   args := [str "x", str "-o%{dest}", str "-y", str "-bb", patSrc],
                   raw := false },
      supportedMimeTypes := [str "application/zip", str "application/x-7z-compressed"],
      additionalSearchDirs := [] }
    (by decide) (by decide) (by decide)

/-- C4: when at least one catalog tool supports the detected media type but no
candidate's executable resolves, resolution fails with the
no-executable-found error, whose message contains the display name of every
attempted tool's executable, and the attempted names are the catalog names in
catalog order (an order-preserving selection of the catalog). -/
theorem c4_noExecutable_error_message (inherits : Str → Bool) (search : SearchFun)
    (catalog : List Tool) (sourceFile : Str)
    (hne : toolsForMimeType inherits catalog ≠ [])
    (hall : ∀ t ∈ toolsForMimeType inherits catalog, resolveTool search t = none) :
    sourceAndCommand inherits search catalog sourceFile
        = .error (noExecutableMessage (toolsForMimeType inherits catalog)) ∧
    (∀ t ∈ toolsForMimeType inherits catalog,
        toUserOutput t.command.executable
          <:+: noExecutableMessage (toolsForMimeType inherits catalog)) ∧
    List.Sublist
      ((toolsForMimeType inherits catalog).map fun t => toUserOutput t.command.executable)
      (catalog.map fun t => toUserOutput t.command.executable) := by
  refine ⟨?_, ?_, ?_⟩
  · simp only [sourceAndCommand]
    rw [if_neg fun hcon => hne (List.isEmpty_iff.mp hcon),
        List.findSome?_eq_none_iff.mpr hall]
  · intro t ht
    simp only [noExecutableMessage]
    exact contains_append_middle _ _
      (joinSep_contains_mem _ _ _ (List.mem_map_of_mem _ ht))
  · simp only [toolsForMimeType]
    exact List.Sublist.map _ (List.filter_sublist catalog)

/-- C4 witness: a compressed-tar source with an empty search path fails with
the message naming the attempted executables. -/
theorem c4_noExecutable_error_message_witness :
    sourceAndCommand inheritsTgz searchNothing (sTools false [] []) (str "archive.tar.gz")
        = .error (noExecutableMessage (toolsForMimeType inheritsTgz (sTools false [] []))) ∧
    toUserOutput gzipTool.command.executable
        <:+: noExecutableMessage (toolsForMimeType inheritsTgz (sTools false [] [])) :=
  ⟨(c4_noExecutable_error_message inheritsTgz searchNothing (sTools false [] [])
      (str "archive.tar.gz") (by decide) (by decide)).1,
   (c4_noExecutable_error_message inheritsTgz searchNothing (sTools false [] [])
      (str "archive.tar.gz") (by decide) (by decide)).2.1 gzipTool (by decide)⟩

/-- C1 counterexample: the claim says resolving a `.tar.gz` source with only
the raw gzip decompressor resolvable fails with the unsupported-format error;
on the code it instead succeeds and selects the gzip tool, because
`application/x-compressed-tar` inherits `application/gzip`, so the last
catalog entry passes the mime filter and resolves. -/
theorem c1_counterexample :
    sourceAndCommand inheritsTgz searchGzipOnly (sTools false [] []) (str "archive.tar.gz")
        = .ok { sourceFile := str "archive.tar.gz", commandTemplate := resolvedGzip.command } ∧
    sourceAndCommand inheritsTgz searchGzipOnly (sTools false [] []) (str "archive.tar.gz")
        ≠ .error msgUnsupportedFormat := by
  constructor
  · decide
  · decide

/-- C1 amended: for a `.tar.gz` source whose detected type inherits
`application/gzip`, when no `cmake` or `tar` tool resolves and the raw gzip
decompressor does, resolution succeeds and selects the raw decompressor (the
last catalog entry); the unsupported-format failure does not occur. -/
theorem c1_tgz_selects_gzip (search : SearchFun) (sourceFile : Str)
    (hcm : search (str "cmake") [] = [])
    (htar : search (str "tar") [] = [])
    (hgz : search (str "gzip") [] ≠ []) :
    sourceAndCommand inheritsTgz search (sTools false [] []) sourceFile
      = .ok { sourceFile := sourceFile,
              commandTemplate := { executable := search (str "gzip") [],
                                   args := [str "-d", patSrc, str "-c"],
                                   raw := false } } := by
  have hsplit : toolsForMimeType inheritsTgz (sTools false [] [])
      = [cmakeTool [] (str "xvzf") [str "application/x-compressed-tar"],
         tarTool (str "xvzf") [str "application/x-compressed-tar"]]
          ++ gzipTool :: [] := by decide
  refine c5_first_match_selection inheritsTgz search (sTools false [] []) sourceFile
    _ _ gzipTool
    { command := { executable := search (str "gzip") [],
                   args := [str "-d", patSrc, str "-c"], raw := false },
      supportedMimeTypes := [str "application/gzip"],
      additionalSearchDirs := [] }
    hsplit ?_ ?_
  · intro u hu
    rcases List.mem_cons.mp hu with h | h
    · subst h
      simp [resolveTool, cmakeTool, hcm]
    · rcases List.mem_cons.mp h with h2 | h2
      · subst h2
        simp [resolveTool, tarTool, htar]
      · exact absurd h2 (List.not_mem_nil u)
  · simp [resolveTool, gzipTool, hgz]

/-- C1 amended witness: concrete search resolving only gzip. -/
theorem c1_tgz_selects_gzip_witness :
    sourceAndCommand inheritsTgz searchGzipOnly (sTools false [] []) (str "archive.tar.gz")
      = .ok { sourceFile := str "archive.tar.gz",
              commandTemplate := { executable := searchGzipOnly (str "gzip") [],
                                   args := [str "-d", patSrc, str "-c"],
                                   raw := false } } :=
  c1_tgz_selects_gzip searchGzipOnly (str "archive.tar.gz")
    (by decide) (by decide) (by decide)

/-- C6 counterexample: the claim quantifies over every source path, but a
source path that itself contains the literal placeholder survives rendering
(the first pass inserts it and the second pass only replaces the destination
placeholder), so a placeholder remains in the rendered command. -/
theorem c6_counterexample :
    (unarchiveCommand { executable := str "tar", args := [str "xvf", patSrc], raw := false }
        (str "%{src}") (str "d")).args = [str "xvf", str "%{src}"] ∧
    patSrc <:+: str "%{src}" := by
  constructor
  · decide
  · decide

/-- C6 amended: provided the source and destination native path strings
contain no placeholder lead-in character and every occurrence of that
character in a template argument starts a full placeholder, rendering
replaces every occurrence of both placeholders in every argument token with
the respective path strings (it equals the spec's simultaneous substitution),
leaves the executable untouched, and no placeholder survives in the rendered
command. -/
theorem c6_render_total (commandTemplate : Cmd) (sourceFile destDir : Str)
    (hs : '%' ∉ sourceFile) (hd : '%' ∉ destDir)
    (hw : ∀ arg ∈ commandTemplate.args, wfArg arg = true) :
    (unarchiveCommand commandTemplate sourceFile destDir).executable
        = commandTemplate.executable ∧
    (unarchiveCommand commandTemplate sourceFile destDir).args
        = commandTemplate.args.map (renderArgSpec sourceFile destDir) ∧
    ∀ arg ∈ (unarchiveCommand commandTemplate sourceFile destDir).args,
      ¬ patSrc <:+: arg ∧ ¬ patDest <:+: arg := by
  refine ⟨rfl, ?_, ?_⟩
  · simp only [unarchiveCommand]
    exact List.map_congr_left fun a ha =>
      renderArg_eq_spec_aux sourceFile destDir hs hd a.length a (le_refl _) (hw a ha)
  · intro arg harg
    simp only [unarchiveCommand, List.mem_map] at harg
    obtain ⟨a, ha, rfl⟩ := harg
    rw [renderArg_eq_spec_aux sourceFile destDir hs hd a.length a (le_refl _) (hw a ha)]
    exact no_placeholder_of_no_pct
      (renderArgSpec_no_pct sourceFile destDir hs hd a.length a (le_refl _) (hw a ha))

/-- C6 amended witness: the 7z template rendered at concrete paths. -/
theorem c6_render_total_witness :
    (unarchiveCommand (sevenZipTool []).command (str "/tmp/a.zip") (str "/tmp/out")).executable
        = (sevenZipTool []).command.executable ∧
    (unarchiveCommand (sevenZipTool []).command (str "/tmp/a.zip") (str "/tmp/out")).args
        = (sevenZipTool []).command.args.map (renderArgSpec (str "/tmp/a.zip") (str "/tmp/out")) ∧
    (¬ patSrc <:+: str "-o/tmp/out" ∧ ¬ patDest <:+: str "-o/tmp/out") :=
  ⟨(c6_render_total (sevenZipTool []).command (str "/tmp/a.zip") (str "/tmp/out")
      (by decide) (by decide) (by decide)).1,
   (c6_render_total (sevenZipTool []).command (str "/tmp/a.zip") (str "/tmp/out")
      (by decide) (by decide) (by decide)).2.1,
   (c6_render_total (sevenZipTool []).command (str "/tmp/a.zip") (str "/tmp/out")
      (by decide) (by decide) (by decide)).2.2 (str "-o/tmp/out") (by decide)⟩

/-- C2 (code bug): the handlers of the raw-decompressor branch emit a
terminal `done(Error)` on a short write and the process-done handler later
emits a second terminal event when the child finishes, so one `start()` call
produces two terminal `done` events, violating the claim's
"at most one terminal done event"; the full trace at the failing input is
computed here. -/
theorem c2_short_write_double_done :
    (gzipProcessRun [ChunkEvent.stdoutChunk [0, 0, 0] 2] true).2
        = [UEvent.output msgWriteFail, UEvent.doneEv false, UEvent.doneEv true] ∧
    countDone (gzipProcessRun [ChunkEvent.stdoutChunk [0, 0, 0] 2] true).2 = 2 := by
  constructor
  · decide
  · decide

/-- C3 counterexample: with an unwritable destination (the
`ensureWritableDir()` environment result is failure) and an archive-tool
command, `start()` spawns the child process and emits no terminal event
beforehand — the code ignores the result of `ensureWritableDir()` (line 157),
so no pre-spawn destination check exists in the archive-tool branch. -/
theorem c3_counterexample :
    (Unarchiver.start { ensureWritableDirOk := false, openOutputFileOk := false }
        tarState).spawned.isSome = true ∧
    countDone (Unarchiver.start { ensureWritableDirOk := false, openOutputFileOk := false }
        tarState).events = 0 := by
  constructor
  · decide
  · decide

/-- C3 amended: only the raw-decompressor branch catches an unusable
destination before spawning — when the output file cannot be opened (as when
the destination directory cannot be created), `start()` emits the diagnostic
and a terminal Error and spawns nothing; the archive-tool branch has no
pre-spawn writability check. -/
theorem c3_gzip_open_failure_pre_spawn (env : StartEnv) (st : UnarchiverState)
    (sc : SourceAndCommand)
    (h1 : st.hasProcess = false) (h2 : st.sourceAndCommand = some sc)
    (h3 : st.destDir ≠ [])
    (h4 : fileName (unarchiveCommand sc.commandTemplate sc.sourceFile st.destDir).executable
        = str "gzip")
    (h5 : env.openOutputFileOk = false) :
    Unarchiver.start env st
      = { events := [UEvent.output msgOpenFail, UEvent.doneEv false], spawned := none,
          assertionFailed := false } := by
  simp [Unarchiver.start, h1, h2, h3, h4, h5]

/-- C3 amended witness: a gzip command aimed at a destination whose output
file cannot be opened. -/
theorem c3_gzip_open_failure_pre_spawn_witness :
    Unarchiver.start { ensureWritableDirOk := false, openOutputFileOk := false } gzipState
      = { events := [UEvent.output msgOpenFail, UEvent.doneEv false], spawned := none,
          assertionFailed := false } :=
  c3_gzip_open_failure_pre_spawn { ensureWritableDirOk := false, openOutputFileOk := false }
    gzipState gzipSC (by decide) (by decide) (by decide) (by decide) (by decide)

/-- C7: in the raw-decompressor branch, when every output-file write consumes
its full chunk, the output file exists after completion exactly when the
child process succeeded, and on success its contents are byte-for-byte the
bytes the child wrote to standard output; on failure the file is removed. -/
theorem c7_gzip_output_iff_success (chunks : List ChunkEvent) (success : Bool)
    (hfull : ∀ data written, ChunkEvent.stdoutChunk data written ∈ chunks →
      written = data.length) :
    ((gzipProcessRun chunks success).1.isSome ↔ success = true) ∧
    (success = true → (gzipProcessRun chunks success).1 = some (stdoutBytes chunks)) := by
  have hwb := writtenBytes_eq_stdoutBytes chunks hfull
  cases success with
  | false =>
    constructor
    · simp [gzipProcessRun]
    · intro h
      cases h
  | true =>
    constructor
    · simp [gzipProcessRun]
    · intro _
      simp only [gzipProcessRun, if_pos]
      rw [runChunks_fst chunks [], List.nil_append, hwb]

/-- C7 witness: a successful run with complete writes retains exactly the
stdout bytes. -/
theorem c7_gzip_output_iff_success_witness :
    ((gzipProcessRun [ChunkEvent.stdoutChunk [1, 2] 2, ChunkEvent.stderrChunk (str "w")]
        true).1.isSome ↔ true = true) ∧
    (gzipProcessRun [ChunkEvent.stdoutChunk [1, 2] 2, ChunkEvent.stderrChunk (str "w")]
        true).1
      = some (stdoutBytes [ChunkEvent.stdoutChunk [1, 2] 2, ChunkEvent.stderrChunk (str "w")]) :=
  ⟨(c7_gzip_output_iff_success [ChunkEvent.stdoutChunk [1, 2] 2,
      ChunkEvent.stderrChunk (str "w")] true (by
        intro data written hmem
        simp only [List.mem_cons, List.not_mem_nil, or_false,
          ChunkEvent.stdoutChunk.injEq, reduceCtorEq] at hmem
        rcases hmem with ⟨rfl, rfl⟩
        rfl)).1,
   (c7_gzip_output_iff_success [ChunkEvent.stdoutChunk [1, 2] 2,
      ChunkEvent.stderrChunk (str "w")] true (by
        intro data written hmem
        simp only [List.mem_cons, List.not_mem_nil, or_false,
          ChunkEvent.stdoutChunk.injEq, reduceCtorEq] at hmem
        rcases hmem with ⟨rfl, rfl⟩
        rfl)).2 rfl⟩

/-- C8: calling `start()` on an instance that already owns a child process is
rejected by the defensive assertion: nothing is spawned, the assert action
emits the terminal Error, and the call is neither queued nor silently
ignored. -/
theorem c8_start_rejected_when_running (env : StartEnv) (st : UnarchiverState)
    (h : st.hasProcess = true) :
    Unarchiver.start env st
      = { events := [UEvent.doneEv false], spawned := none, assertionFailed := true } := by
  simp [Unarchiver.start, h]

/-- C8 witness: a state already owning a process. -/
theorem c8_start_rejected_when_running_witness :
    Unarchiver.start { ensureWritableDirOk := true, openOutputFileOk := true }
        { tarState with hasProcess := true }
      = { events := [UEvent.doneEv false], spawned := none, assertionFailed := true } :=
  c8_start_rejected_when_running { ensureWritableDirOk := true, openOutputFileOk := true }
    { tarState with hasProcess := true } (by decide)

/-- C9: `resolveTool` returns a copy whose executable is the search result
while the argument list, the raw mode, the supported mime types and the
additional search directories are unchanged, and it returns nothing exactly
when the executable search comes back empty (the catalog entry itself, being
a value, is untouched). -/
theorem c9_resolveTool_frame (search : SearchFun) (tool : Tool) :
    (resolveTool search tool = none ↔
        search tool.command.executable tool.additionalSearchDirs = []) ∧
    (∀ resolved, resolveTool search tool = some resolved →
        resolved.command.executable = search tool.command.executable tool.additionalSearchDirs ∧
        resolved.command.args = tool.command.args ∧
        resolved.command.raw = tool.command.raw ∧
        resolved.supportedMimeTypes = tool.supportedMimeTypes ∧
        resolved.additionalSearchDirs = tool.additionalSearchDirs) := by
  constructor
  · constructor
    · intro hnone
      by_cases h : search tool.command.executable tool.additionalSearchDirs = []
      · exact h
      · simp [resolveTool, h] at hnone
    · intro h
      simp [resolveTool, h]
  · intro resolved hres
    by_cases h : search tool.command.executable tool.additionalSearchDirs = []
    · simp [resolveTool, h] at hres
    · simp only [resolveTool, if_neg h, Option.some.injEq] at hres
      rw [← hres]
      exact ⟨rfl, rfl, rfl, rfl, rfl⟩

/-- C9 witness: the resolved gzip entry under the gzip-only search. -/
theorem c9_resolveTool_frame_witness :
    resolvedGzip.command.executable
        = searchGzipOnly gzipTool.command.executable gzipTool.additionalSearchDirs ∧
    resolvedGzip.command.args = gzipTool.command.args ∧
    resolvedGzip.command.raw = gzipTool.command.raw ∧
    resolvedGzip.supportedMimeTypes = gzipTool.supportedMimeTypes ∧
    resolvedGzip.additionalSearchDirs = gzipTool.additionalSearchDirs :=
  (c9_resolveTool_frame searchGzipOnly gzipTool).2 resolvedGzip (by decide)

/-- C10: in the raw-decompressor branch the output file is removed at process
completion exactly when the verdict is failure, independently of earlier
short writes: on a successful verdict the (possibly truncated) file is
retained with the bytes the writes consumed, and the last emitted event is
the terminal Success. -/
theorem c10_removal_by_verdict_only (chunks : List ChunkEvent) (success : Bool) :
    ((gzipProcessRun chunks success).1.isSome = success) ∧
    (success = true →
      (gzipProcessRun chunks success).1 = some (writtenBytes chunks) ∧
      (gzipProcessRun chunks success).2.getLast? = some (UEvent.doneEv true)) := by
  cases success with
  | false =>
    constructor
    · simp [gzipProcessRun]
    · intro h
      cases h
  | true =>
    constructor
    · simp [gzipProcessRun]
    · intro _
      constructor
      · simp only [gzipProcessRun, if_pos]
        rw [runChunks_fst chunks [], List.nil_append]
      · simp [gzipProcessRun, List.getLast?_concat]

/-- C10 witness: a short write (one byte of three consumed) followed by a
successful verdict retains the truncated file and ends with Success. -/
theorem c10_removal_by_verdict_only_witness :
    ((gzipProcessRun [ChunkEvent.stdoutChunk [5, 6, 7] 1] true).1.isSome = true) ∧
    ((gzipProcessRun [ChunkEvent.stdoutChunk [5, 6, 7] 1] true).1
        = some (writtenBytes [ChunkEvent.stdoutChunk [5, 6, 7] 1]) ∧
     (gzipProcessRun [ChunkEvent.stdoutChunk [5, 6, 7] 1] true).2.getLast?
        = some (UEvent.doneEv true)) :=
  ⟨(c10_removal_by_verdict_only [ChunkEvent.stdoutChunk [5, 6, 7] 1] true).1,
   (c10_removal_by_verdict_only [ChunkEvent.stdoutChunk [5, 6, 7] 1] true).2 rfl⟩
